import Mathlib

/-!
Shallow embedding of the dynamic array in `src/vector.h` of this repository:
the raw buffer `RawMemory<T>` and the container `Vector<T>` built on it.

Modelling conventions.

* A raw buffer is its owning pointer plus its capacity.  The pointer is an
  `Option Nat`: `none` is `nullptr`, `some a` is the address handed out by
  `operator new`.  Raw uninitialized bytes are not modelled; the live objects
  of a vector are the list `elems`, so the C++ field `size_` is
  `elems.length`.
* Operations that allocate take the fresh address `addr` returned by
  `operator new` as an explicit parameter, mirroring `RawMemory::Allocate`.
* C++ constructors and mutators that also change their argument are modelled
  as functions returning the pair of both objects afterwards, in the order
  `(constructed or assigned-to object, source)`.
* In this value-level model a C++ move transfers the value, so the move and
  the copy transfer of a reallocation produce the same element values; the
  move-vs-copy selection of `Reserve` / `EmplaceBack` / `EmplaceReallocate`
  is modelled separately by `selectPolicy`.
* Functions suffixed `TC` / `TM` model the same source code for an element
  type whose copy (`TC`) or move (`TM`) constructor can throw: `fail i =
  true` means the i-th constructor invocation of the scenario throws, `cnt`
  being the number of invocations already performed before the call.  They
  return an `Except` whose `error` payload is the state of the container
  observed by the caller after the exception has propagated out of the
  operation.
-/

namespace VecModel

variable {α : Type}

/-- RawMemory<T> (src/vector.h:9-91): an owning pointer and a capacity. -/
structure RawMemory (α : Type) where
  buffer : Option Nat
  capacity : Nat
  deriving DecidableEq

/-- Allocate (src/vector.h:80-82): `n != 0 ? operator new(n * sizeof(T)) : nullptr`. -/
def RawMemory.Allocate (addr n : Nat) : Option Nat :=
  if n ≠ 0 then some addr else none

/-- RawMemory(size_t capacity) (src/vector.h:14-17). -/
def RawMemory.ofCapacity (addr n : Nat) : RawMemory α :=
  ⟨RawMemory.Allocate addr n, n⟩

/-- RawMemory() (src/vector.h:12): null pointer, capacity 0. -/
def RawMemory.null : RawMemory α := ⟨none, 0⟩

/-- Swap (src/vector.h:61-64): exchanges pointer and capacity with the other
buffer; the result is the pair (self, other) after the call. -/
def RawMemory.Swap (self other : RawMemory α) : RawMemory α × RawMemory α :=
  (other, self)

/-- RawMemory(RawMemory&&) (src/vector.h:22-27): the new object takes the
fields, the source is reset to nullptr / 0.  Result: (constructed, source). -/
def RawMemory.moveCtor (other : RawMemory α) : RawMemory α × RawMemory α :=
  (⟨other.buffer, other.capacity⟩, ⟨none, 0⟩)

/-- operator=(RawMemory&&) for `this != &rhs` (src/vector.h:29-36):
`Deallocate(buffer_)` frees the block but leaves the pointer field as it was,
`capacity_` is set to 0, then `Swap(rhs)`.  Result: (this, rhs) after the
call; note that rhs keeps this object's old (now freed) pointer value. -/
def RawMemory.moveAssign (self rhs : RawMemory α) : RawMemory α × RawMemory α :=
  (⟨rhs.buffer, rhs.capacity⟩, ⟨self.buffer, 0⟩)

/-- Buffer invariant stated by the spec: the pointer is null exactly when the
capacity is 0. -/
def RawMemory.WF (m : RawMemory α) : Prop := m.buffer = none ↔ m.capacity = 0

instance (m : RawMemory α) : Decidable m.WF := by
  unfold RawMemory.WF; infer_instance

/-- Vector<T> (src/vector.h:95-169): the raw buffer `data_` plus the live
elements; the C++ counter `size_` is `elems.length` here. -/
structure Vector (α : Type) where
  data_ : RawMemory α
  elems : List α
  deriving DecidableEq

/-- Size (src/vector.h:298-301). -/
def Vector.Size (v : Vector α) : Nat := v.elems.length

/-- Capacity (src/vector.h:303-306). -/
def Vector.Capacity (v : Vector α) : Nat := v.data_.capacity

/-- Vector() (src/vector.h:103): size 0, capacity 0. -/
def Vector.empty : Vector α := ⟨⟨none, 0⟩, []⟩

/-- Swap (src/vector.h:336-340): swaps data_ and size_ with the other vector;
the result is the pair (self, other) after the call. -/
def Vector.Swap (self other : Vector α) : Vector α × Vector α :=
  (other, self)

/-- Vector(size_t) (src/vector.h:171-177): buffer of capacity `size`, elements
value-initialized. -/
def Vector.ofSize [Inhabited α] (addr n : Nat) : Vector α :=
  ⟨RawMemory.ofCapacity addr n, List.replicate n default⟩

/-- Vector(const Vector&) (src/vector.h:179-185): buffer of capacity
`other.size_` (no headroom), elements copied with `uninitialized_copy_n`.
Result: (copy, source after the construction — the source is only read). -/
def Vector.copyCtor (addr : Nat) (other : Vector α) : Vector α × Vector α :=
  (⟨RawMemory.ofCapacity addr other.elems.length, other.elems⟩, other)

/-- operator=(const Vector&) (src/vector.h:187-209); `same` models the
`this == &rhs` pointer test guarding the whole body. -/
def Vector.copyAssign (same : Bool) (addr : Nat) (self rhs : Vector α) : Vector α :=
  if same then self
  else if rhs.elems.length > self.data_.capacity then
    -- Vector rhs_copy(rhs); Swap(rhs_copy): copy-and-swap (src/vector.h:192-193)
    ⟨RawMemory.ofCapacity addr rhs.elems.length, rhs.elems⟩
  else if rhs.elems.length < self.elems.length then
    -- std::copy over the first rhs.size_ slots, destroy_n on the tail (src/vector.h:198-199)
    ⟨self.data_, (rhs.elems ++ self.elems.drop rhs.elems.length).take rhs.elems.length⟩
  else
    -- std::copy over the first size_ slots, uninitialized_copy_n of the rest (src/vector.h:202-203)
    ⟨self.data_, rhs.elems.take self.elems.length ++ rhs.elems.drop self.elems.length⟩

/-- Vector(Vector&&) (src/vector.h:211-214): members default-initialized,
then Swap(other).  Result: (constructed, source). -/
def Vector.moveCtor (other : Vector α) : Vector α × Vector α :=
  Vector.Swap Vector.empty other

/-- operator=(Vector&&) (src/vector.h:216-222); `same` models `this == &rhs`.
Result: (this, rhs) after the call. -/
def Vector.moveAssign (same : Bool) (self rhs : Vector α) : Vector α × Vector α :=
  if same then (self, rhs) else Vector.Swap self rhs

/-- Reserve (src/vector.h:319-334): no-op unless new_capacity exceeds the
current capacity; otherwise allocate exactly new_capacity, transfer the
elements (move or copy, same values in this model), destroy the old ones and
swap the buffers. -/
def Vector.Reserve (addr new_capacity : Nat) (v : Vector α) : Vector α :=
  if new_capacity ≤ v.data_.capacity then v
  else ⟨RawMemory.ofCapacity addr new_capacity, v.elems⟩

/-- Transfer policy of a reallocation. -/
inductive TransferPolicy where
  | move
  | copy
  deriving DecidableEq

/-- Condition selecting the transfer constructor in Reserve, EmplaceBack and
EmplaceReallocate (src/vector.h:326, 387, 426):
`is_nothrow_move_constructible_v<T> || !is_copy_constructible_v<T>` chooses
move, otherwise copy. -/
def selectPolicy (nothrowMove copyable : Bool) : TransferPolicy :=
  if nothrowMove || !copyable then TransferPolicy.move else TransferPolicy.copy

/-- Resize (src/vector.h:342-360). -/
def Vector.Resize [Inhabited α] (addr new_size : Nat) (v : Vector α) : Vector α :=
  if new_size < v.elems.length then
    -- destroy_n of the trailing size_ - new_size elements
    ⟨v.data_, v.elems.take new_size⟩
  else if v.elems.length < new_size then
    -- Reserve if new_size > Capacity(), then value-construct the tail
    let v1 := if v.data_.capacity < new_size then v.Reserve addr new_size else v
    ⟨v1.data_, v1.elems ++ List.replicate (new_size - v1.elems.length) default⟩
  else v

/-- PopBack (src/vector.h:368-373): destroy the last element, decrement size_. -/
def Vector.PopBack (v : Vector α) : Vector α :=
  ⟨v.data_, v.elems.dropLast⟩

/-- IsEmpty (src/vector.h:375-378). -/
def Vector.IsEmpty (v : Vector α) : Bool :=
  v.elems.length == 0

/-- EmplaceBack (src/vector.h:380-401): when size_ == Capacity(), allocate
`size_ == 0 ? 1 : size_ * 2`, construct the new element at slot size_ of the
new block, transfer the old elements in front of it, destroy the old ones and
swap; otherwise construct in place at slot size_.  Then ++size_. -/
def Vector.EmplaceBack (addr : Nat) (x : α) (v : Vector α) : Vector α :=
  if v.elems.length = v.data_.capacity then
    ⟨RawMemory.ofCapacity addr (if v.elems.length = 0 then 1 else v.elems.length * 2),
      v.elems ++ [x]⟩
  else
    ⟨v.data_, v.elems ++ [x]⟩

/-- PushBack (src/vector.h:362-366): delegates to EmplaceBack. -/
def Vector.PushBack (addr : Nat) (x : α) (v : Vector α) : Vector α :=
  v.EmplaceBack addr x

/-- Loop of std::move_backward(first, last, d_last) as used at
src/vector.h:411, where d_last = last + 1: with k iterations left, write slot
`last` from slot `last - 1`, then step both positions down. -/
def shiftRightLoop [Inhabited α] : Nat → Nat → List α → List α
  | 0, _, l => l
  | k + 1, last, l => shiftRightLoop k (last - 1) (l.set last (l.getD (last - 1) default))

/-- EmplaceShift (src/vector.h:403-415): insertion with spare capacity. -/
def Vector.EmplaceShift [Inhabited α] (index : Nat) (x : α) (v : Vector α) : Vector α :=
  let n := v.elems.length
  -- T temp_value(std::forward<Args>(args)...)
  let temp := x
  -- new (data_ + size_) T(std::move(data_[size_ - 1]))
  let e0 := v.elems ++ [v.elems.getD (n - 1) default]
  -- std::move_backward(data_ + index, data_ + size_ - 1, data_ + size_)
  let e1 := shiftRightLoop (n - 1 - index) (n - 1) e0
  -- data_[index] = std::move(temp_value); ++size_
  ⟨v.data_, e1.set index temp⟩

/-- EmplaceReallocate (src/vector.h:417-447): allocate `size_ == 0 ? 1 :
size_ * 2`, construct the new element at `index` in the new block, transfer
the prefix [0,index) to [0,index) and the old elements [index,size_) to
[index+1,size_+1), destroy the old elements, swap, ++size_. -/
def Vector.EmplaceReallocate (addr index : Nat) (x : α) (v : Vector α) : Vector α :=
  ⟨RawMemory.ofCapacity addr (if v.elems.length = 0 then 1 else v.elems.length * 2),
    v.elems.take index ++ x :: v.elems.drop index⟩

/-- Emplace (src/vector.h:259-276); the returned Nat is the offset of the
returned iterator from begin(), which is `index` on all three paths. -/
def Vector.Emplace [Inhabited α] (addr index : Nat) (x : α) (v : Vector α) :
    Vector α × Nat :=
  if v.elems.length < v.data_.capacity then
    if index = v.elems.length then (v.EmplaceBack addr x, index)
    else (v.EmplaceShift index x, index)
  else
    (v.EmplaceReallocate addr index x, index)

/-- Insert (src/vector.h:278-286): both overloads delegate to Emplace. -/
def Vector.Insert [Inhabited α] (addr index : Nat) (x : α) (v : Vector α) :
    Vector α × Nat :=
  v.Emplace addr index x

/-- Loop of std::move(first, last, d_first) as used at src/vector.h:293,
where first = d_first + 1: with k iterations left, write slot `dst` from slot
`dst + 1`, then step both positions up. -/
def shiftLeftLoop [Inhabited α] : Nat → Nat → List α → List α
  | 0, _, l => l
  | k + 1, dst, l => shiftLeftLoop k (dst + 1) (l.set dst (l.getD (dst + 1) default))

/-- Erase (src/vector.h:288-296): move the elements after `index` one slot to
the left, then PopBack; returns (vector, offset of begin() + index). -/
def Vector.Erase [Inhabited α] (index : Nat) (v : Vector α) : Vector α × Nat :=
  let e1 := shiftLeftLoop (v.elems.length - index - 1) index v.elems
  (Vector.PopBack ⟨v.data_, e1⟩, index)

/-- Repeated PushBack of the value 0 starting from the empty vector, with a
fresh allocation address at each step. -/
def pushN : Nat → Vector Nat
  | 0 => Vector.empty
  | n + 1 => Vector.PushBack (n + 1) 0 (pushN n)

/-- std::uninitialized_copy_n for an element type whose copy constructor
throws on the invocations selected by `fail` (`cnt` invocations happened
before the call): on a throw the partially constructed destination is
destroyed and the source is unchanged, so the error carries nothing.  On
success the result is the copied values and the new invocation counter. -/
def uninitCopyNT (fail : Nat → Bool) : Nat → List α → Except Unit (List α × Nat)
  | cnt, [] => Except.ok ([], cnt)
  | cnt, x :: xs =>
    if fail (cnt + 1) then Except.error ()
    else
      match uninitCopyNT fail (cnt + 1) xs with
      | Except.ok (ys, c) => Except.ok (x :: ys, c)
      | Except.error e => Except.error e

/-- std::uninitialized_move_n for an element type whose move constructor
throws on the invocations selected by `fail`: a successful move of an element
leaves the source element in the moved-from state `mv x`; on a throw the
destination partials are destroyed, but the prefix of the source that was
already moved from stays damaged.  The error payload is the source contents
after the failed call. -/
def uninitMoveNT (fail : Nat → Bool) (mv : α → α) :
    Nat → List α → Except (List α) (List α × Nat)
  | cnt, [] => Except.ok ([], cnt)
  | cnt, x :: xs =>
    if fail (cnt + 1) then Except.error (x :: xs)
    else
      match uninitMoveNT fail mv (cnt + 1) xs with
      | Except.ok (ys, c) => Except.ok (x :: ys, c)
      | Except.error xs1 => Except.error (mv x :: xs1)

/-- Reserve (src/vector.h:319-334) for an element type with a throwing copy
constructor, on the `uninitialized_copy_n` branch of the constexpr-if.  The
error payload is the container state seen after the exception propagates:
`new_data` is freed by its destructor and `data_` / `size_` were never
touched. -/
def Vector.ReserveTC (fail : Nat → Bool) (cnt addr new_capacity : Nat) (v : Vector α) :
    Except (Vector α) (Vector α × Nat) :=
  if new_capacity ≤ v.data_.capacity then Except.ok (v, cnt)
  else
    match uninitCopyNT fail cnt v.elems with
    | Except.error _ => Except.error v
    | Except.ok (ys, c) => Except.ok (⟨RawMemory.ofCapacity addr new_capacity, ys⟩, c)

/-- Reserve (src/vector.h:319-334) for a non-copyable element type whose move
constructor throws: the constexpr-if selects `uninitialized_move_n` even
though the move can fail, so the error payload keeps the damaged prefix of
the source elements inside the untouched old buffer. -/
def Vector.ReserveTM (fail : Nat → Bool) (mv : α → α) (cnt addr new_capacity : Nat)
    (v : Vector α) : Except (Vector α) (Vector α × Nat) :=
  if new_capacity ≤ v.data_.capacity then Except.ok (v, cnt)
  else
    match uninitMoveNT fail mv cnt v.elems with
    | Except.error xs1 => Except.error ⟨v.data_, xs1⟩
    | Except.ok (ys, c) => Except.ok (⟨RawMemory.ofCapacity addr new_capacity, ys⟩, c)

/-- EmplaceBack (src/vector.h:380-401) for an element type with a throwing
copy constructor.  The new element is constructed (one invocation) before the
old elements are copied across; there is no try/catch, so a failing transfer
leaks that element, but `data_` and `size_` are untouched on every failing
path. -/
def Vector.EmplaceBackTC (fail : Nat → Bool) (cnt addr : Nat) (x : α) (v : Vector α) :
    Except (Vector α) (Vector α × Nat) :=
  if v.elems.length = v.data_.capacity then
    if fail (cnt + 1) then Except.error v
    else
      match uninitCopyNT fail (cnt + 1) v.elems with
      | Except.error _ => Except.error v
      | Except.ok (ys, c) =>
          Except.ok
            (⟨RawMemory.ofCapacity addr (if v.elems.length = 0 then 1 else v.elems.length * 2),
              ys ++ [x]⟩, c)
  else
    if fail (cnt + 1) then Except.error v
    else Except.ok (⟨v.data_, v.elems ++ [x]⟩, cnt + 1)

/-- EmplaceReallocate (src/vector.h:417-447) for an element type with a
throwing copy constructor: the new element is constructed first (one
invocation), then the prefix and the suffix are copied; the catch block
destroys the already constructed new element and rethrows, leaving `data_`
and `size_` untouched. -/
def Vector.EmplaceReallocateTC (fail : Nat → Bool) (cnt addr index : Nat) (x : α)
    (v : Vector α) : Except (Vector α) (Vector α × Nat) :=
  if fail (cnt + 1) then Except.error v
  else
    match uninitCopyNT fail (cnt + 1) (v.elems.take index) with
    | Except.error _ => Except.error v
    | Except.ok (pre, c1) =>
      match uninitCopyNT fail c1 (v.elems.drop index) with
      | Except.error _ => Except.error v
      | Except.ok (suf, c2) =>
          Except.ok
            (⟨RawMemory.ofCapacity addr (if v.elems.length = 0 then 1 else v.elems.length * 2),
              pre ++ x :: suf⟩, c2)

/-- operator=(const Vector&) (src/vector.h:187-209) restricted to the
reallocating branch `rhs.size_ > data_.Capacity()`, for an element type with
a throwing copy constructor: `Vector rhs_copy(rhs); Swap(rhs_copy);` — if the
copy construction throws, its partially constructed elements are unwound and
this object is untouched. -/
def Vector.copyAssignReallocTC (fail : Nat → Bool) (cnt addr : Nat) (self rhs : Vector α) :
    Except (Vector α) (Vector α × Nat) :=
  match uninitCopyNT fail cnt rhs.elems with
  | Except.error _ => Except.error self
  | Except.ok (ys, c) => Except.ok (⟨RawMemory.ofCapacity addr rhs.elems.length, ys⟩, c)

/-- C2: the spec claims the pointer of a raw buffer is null exactly when its
capacity is 0 and that every RawMemory operation preserves this; but move
assignment between two well-formed buffers of capacity 1 leaves the source
with its old non-null (already freed) pointer and capacity 0, violating the
invariant (and double-freeing that pointer in the source's destructor). -/
theorem c2_invariant_violation :
    RawMemory.WF (⟨some 1, 1⟩ : RawMemory Nat) ∧
    RawMemory.WF (⟨some 2, 1⟩ : RawMemory Nat) ∧
    ¬ RawMemory.WF (RawMemory.moveAssign (⟨some 1, 1⟩ : RawMemory Nat) ⟨some 2, 1⟩).2 := by
  decide

/-- C3 counterexample: moving the one-element vector `a` into the non-empty
vector `b` by move assignment leaves the source holding `b`'s old element,
not the empty state the claim requires. -/
theorem c3_counterexample :
    (Vector.moveAssign false (⟨⟨some 8, 1⟩, [2]⟩ : Vector Nat)
        ⟨⟨some 7, 1⟩, [1]⟩).2.Size ≠ 0 := by
  decide

/-- C3 (amended): move construction of a Vector or a RawMemory empties the
source and the destination holds exactly what the source held; move
assignment instead exchanges — the destination receives the source's prior
contents while the source receives the destination's prior state (for
RawMemory move assignment, the destination's old pointer with capacity 0). -/
theorem c3_move_semantics : ∀ (a b : Vector α) (m n : RawMemory α),
    Vector.moveCtor a = (a, Vector.empty) ∧
    Vector.moveAssign false b a = (a, b) ∧
    RawMemory.moveCtor m = (m, ⟨none, 0⟩) ∧
    RawMemory.moveAssign n m = (m, ⟨n.buffer, 0⟩) := by
  intro a b m n
  exact ⟨rfl, rfl, rfl, rfl⟩

/-- C6: copy construction yields a vector elementwise equal to the source
with count equal to the source's count and capacity exactly equal to that
count, and the source is left unchanged. -/
theorem c6_copy_construct : ∀ (addr : Nat) (a : Vector α),
    (Vector.copyCtor addr a).1.elems = a.elems ∧
    (Vector.copyCtor addr a).1.Size = a.Size ∧
    (Vector.copyCtor addr a).1.Capacity = (Vector.copyCtor addr a).1.Size ∧
    (Vector.copyCtor addr a).2 = a := by
  intro addr a
  exact ⟨rfl, rfl, rfl, rfl⟩

/-- C8: Reserve is a complete no-op when the requested capacity does not
exceed the current one; otherwise the capacity becomes exactly the request
while the elements are preserved; and the transfer uses move construction
exactly when the element move constructor cannot throw or the type is not
copyable, copy construction otherwise. -/
theorem c8_reserve :
    (∀ (addr new_capacity : Nat) (v : Vector α), new_capacity ≤ v.Capacity →
        v.Reserve addr new_capacity = v) ∧
    (∀ (addr new_capacity : Nat) (v : Vector α), v.Capacity < new_capacity →
        (v.Reserve addr new_capacity).Capacity = new_capacity ∧
        (v.Reserve addr new_capacity).elems = v.elems) ∧
    (∀ nothrowMove copyable : Bool,
        selectPolicy nothrowMove copyable = TransferPolicy.move ↔
          (nothrowMove = true ∨ copyable = false)) := by
  refine ⟨?_, ?_, ?_⟩
  · intro addr nc v h
    simp only [Vector.Capacity] at h
    simp [Vector.Reserve, h]
  · intro addr nc v h
    simp only [Vector.Capacity] at h
    have h' : ¬ nc ≤ v.data_.capacity := Nat.not_le.mpr h
    constructor <;>
      simp [Vector.Reserve, Vector.Capacity, RawMemory.ofCapacity, h']
  · intro nm cp
    cases nm <;> cases cp <;> decide

/-- C8 witness: a concrete no-op Reserve. -/
theorem c8_reserve_witness :
    3 ≤ (⟨⟨some 1, 4⟩, [10, 20]⟩ : Vector Nat).Capacity ∧
    Vector.Reserve 5 3 (⟨⟨some 1, 4⟩, [10, 20]⟩ : Vector Nat) = ⟨⟨some 1, 4⟩, [10, 20]⟩ :=
  ⟨by decide, c8_reserve.1 5 3 _ (by decide)⟩

/-- C9: guarded self-assignment is the identity, for both copy assignment and
move assignment. -/
theorem c9_self_assignment : ∀ (addr : Nat) (v : Vector α),
    Vector.copyAssign true addr v v = v ∧ Vector.moveAssign true v v = (v, v) := by
  intro addr v
  exact ⟨rfl, rfl⟩

/-- C10: PopBack, Erase and a shrinking Resize leave the raw buffer (pointer
and capacity) untouched; only the count and the live elements change. -/
theorem c10_frame [Inhabited α] :
    (∀ v : Vector α, v.PopBack.data_ = v.data_) ∧
    (∀ (index : Nat) (v : Vector α), (v.Erase index).1.data_ = v.data_) ∧
    (∀ (addr new_size : Nat) (v : Vector α), new_size < v.Size →
        (v.Resize addr new_size).data_ = v.data_) := by
  refine ⟨fun v => rfl, fun i v => rfl, ?_⟩
  intro addr ns v h
  simp only [Vector.Size] at h
  simp [Vector.Resize, h]

/-- C10 witness: a concrete shrinking Resize keeps the buffer. -/
theorem c10_frame_witness :
    1 < (⟨⟨some 1, 4⟩, [10, 20]⟩ : Vector Nat).Size ∧
    (Vector.Resize 9 1 (⟨⟨some 1, 4⟩, [10, 20]⟩ : Vector Nat)).data_ =
      (⟨⟨some 1, 4⟩, [10, 20]⟩ : Vector Nat).data_ :=
  ⟨by decide, c10_frame.2.2 9 1 _ (by decide)⟩

/-- C7: Resize truncates to the first new_size elements when shrinking (same
buffer), pads with default-constructed elements and reaches capacity at least
new_size when growing, always sets the count to exactly new_size, and the two
spec examples hold. -/
theorem c7_resize [Inhabited α] :
    (∀ (addr new_size : Nat) (v : Vector α), new_size < v.Size →
        (v.Resize addr new_size).elems = v.elems.take new_size ∧
        (v.Resize addr new_size).data_ = v.data_) ∧
    (∀ (addr new_size : Nat) (v : Vector α), v.Size < new_size →
        (v.Resize addr new_size).elems =
          v.elems ++ List.replicate (new_size - v.Size) default ∧
        new_size ≤ (v.Resize addr new_size).Capacity) ∧
    (∀ (addr new_size : Nat) (v : Vector α), (v.Resize addr new_size).Size = new_size) ∧
    (Vector.Resize 9 2 (⟨⟨some 1, 4⟩, [1, 2, 3, 4]⟩ : Vector Nat)).elems = [1, 2] ∧
    (Vector.Resize 9 6 (⟨⟨some 1, 2⟩, [1, 2]⟩ : Vector Nat)).elems = [1, 2, 0, 0, 0, 0] ∧
    6 ≤ (Vector.Resize 9 6 (⟨⟨some 1, 2⟩, [1, 2]⟩ : Vector Nat)).Capacity := by
  refine ⟨?_, ?_, ?_, by decide, by decide, by decide⟩
  · intro addr ns v h
    simp only [Vector.Size] at h
    constructor <;> simp [Vector.Resize, h]
  · intro addr ns v h
    simp only [Vector.Size] at h
    have h1 : ¬ ns < v.elems.length := by omega
    by_cases hc : v.data_.capacity < ns
    · have hc' : ¬ ns ≤ v.data_.capacity := Nat.not_le.mpr hc
      constructor <;>
        simp [Vector.Resize, Vector.Size, Vector.Capacity, Vector.Reserve,
          RawMemory.ofCapacity, h1, h, hc, hc']
    · refine ⟨?_, ?_⟩
      · simp [Vector.Resize, Vector.Size, h1, h, hc]
      · simp [Vector.Resize, Vector.Size, Vector.Capacity, h1, h, hc]
        omega
  · intro addr ns v
    simp only [Vector.Resize, Vector.Size]
    by_cases h1 : ns < v.elems.length
    · simp [h1]; omega
    · by_cases h2 : v.elems.length < ns
      · by_cases hc : v.data_.capacity < ns
        · have hc' : ¬ ns ≤ v.data_.capacity := Nat.not_le.mpr hc
          simp [h1, h2, hc, hc', Vector.Reserve]
          omega
        · simp [h1, h2, hc, Vector.Reserve]
          omega
      · have h3 : ns = v.elems.length := by omega
        simp [h1, h2, h3]

/-- C7 witness: a concrete shrinking Resize. -/
theorem c7_resize_witness :
    2 < (⟨⟨some 1, 4⟩, [1, 2, 3, 4]⟩ : Vector Nat).Size ∧
    ((Vector.Resize 9 2 (⟨⟨some 1, 4⟩, [1, 2, 3, 4]⟩ : Vector Nat)).elems =
        ([1, 2, 3, 4] : List Nat).take 2 ∧
      (Vector.Resize 9 2 (⟨⟨some 1, 4⟩, [1, 2, 3, 4]⟩ : Vector Nat)).data_ =
        (⟨⟨some 1, 4⟩, [1, 2, 3, 4]⟩ : Vector Nat).data_) :=
  ⟨by decide, c7_resize.1 9 2 _ (by decide)⟩

/-- Size of the vector built by n repeated PushBack from empty. -/
theorem pushN_size : ∀ n : Nat, (pushN n).Size = n := by
  intro n
  induction n with
  | zero => rfl
  | succ n ih =>
    simp only [Vector.Size] at ih ⊢
    simp only [pushN, Vector.PushBack, Vector.EmplaceBack]
    by_cases h : (pushN n).elems.length = (pushN n).data_.capacity <;>
      simp [h] <;> omega

/-- Capacity of the vector built by n repeated PushBack from empty: the least
power of two that is at least n. -/
theorem pushN_cap : ∀ n : Nat, 1 ≤ n →
    ∃ j : Nat, (pushN n).Capacity = 2 ^ j ∧ n ≤ 2 ^ j ∧ 2 ^ j < 2 * n := by
  intro n
  induction n with
  | zero => intro h; exact absurd h (by decide)
  | succ n ih =>
    intro _
    by_cases h0 : n = 0
    · subst h0
      exact ⟨0, by decide⟩
    · obtain ⟨j, hcap, hle, hlt⟩ := ih (by omega)
      have hsize : (pushN n).elems.length = n := by
        simpa [Vector.Size] using pushN_size n
      simp only [Vector.Capacity] at hcap
      simp only [pushN, Vector.PushBack, Vector.EmplaceBack, Vector.Capacity]
      by_cases h : (pushN n).elems.length = (pushN n).data_.capacity
      · have hn : n = 2 ^ j := by omega
        refine ⟨j + 1, ?_, by rw [pow_succ]; omega, by rw [pow_succ]; omega⟩
        rw [if_pos h, hsize, if_neg h0]
        show n * 2 = 2 ^ (j + 1)
        rw [pow_succ]; omega
      · have hne : n ≠ 2 ^ j := by omega
        refine ⟨j, ?_, by omega, by omega⟩
        rw [if_neg h]
        exact hcap

/-- C4: when count equals capacity, EmplaceBack and EmplaceReallocate grow
the capacity to max(1, 2 * capacity); consequently after n pushes from empty
the capacity is the least power of two at least n, which is the doubling
sequence 1, 2, 4, 8, ... -/
theorem c4_growth :
    (∀ (addr : Nat) (x : α) (v : Vector α), v.Size = v.Capacity →
        (v.EmplaceBack addr x).Capacity = max 1 (2 * v.Capacity)) ∧
    (∀ (addr index : Nat) (x : α) (v : Vector α), v.Size = v.Capacity →
        (v.EmplaceReallocate addr index x).Capacity = max 1 (2 * v.Capacity)) ∧
    (∀ n : Nat, 1 ≤ n → (pushN n).Size = n ∧
        ∃ j : Nat, (pushN n).Capacity = 2 ^ j ∧ n ≤ 2 ^ j ∧ 2 ^ j < 2 * n) := by
  refine ⟨?_, ?_, fun n h => ⟨pushN_size n, pushN_cap n h⟩⟩
  · intro addr x v h
    simp only [Vector.Size, Vector.Capacity] at h ⊢
    simp only [Vector.EmplaceBack, if_pos h]
    by_cases hz : v.elems.length = 0 <;>
      simp [hz, RawMemory.ofCapacity] <;> omega
  · intro addr i x v h
    simp only [Vector.Size, Vector.Capacity] at h ⊢
    simp only [Vector.EmplaceReallocate]
    by_cases hz : v.elems.length = 0 <;>
      simp [hz, RawMemory.ofCapacity] <;> omega

/-- C4 witness: a full vector of two elements doubles to capacity 4, and five
pushes from empty give capacity 8. -/
theorem c4_growth_witness :
    ((⟨⟨some 1, 2⟩, [5, 6]⟩ : Vector Nat).Size = (⟨⟨some 1, 2⟩, [5, 6]⟩ : Vector Nat).Capacity ∧
      (Vector.EmplaceBack 3 7 (⟨⟨some 1, 2⟩, [5, 6]⟩ : Vector Nat)).Capacity =
        max 1 (2 * (⟨⟨some 1, 2⟩, [5, 6]⟩ : Vector Nat).Capacity)) ∧
    (1 ≤ 5 ∧ ((pushN 5).Size = 5 ∧
      ∃ j : Nat, (pushN 5).Capacity = 2 ^ j ∧ 5 ≤ 2 ^ j ∧ 2 ^ j < 2 * 5)) :=
  ⟨⟨by decide, (c4_growth (α := Nat)).1 3 7 _ (by decide)⟩, by decide,
    (c4_growth (α := Nat)).2.2 5 (by decide)⟩

/-- shiftRightLoop preserves the length of the list. -/
theorem shiftRightLoop_length [Inhabited α] :
    ∀ (k last : Nat) (l : List α), (shiftRightLoop k last l).length = l.length := by
  intro k
  induction k with
  | zero => intro last l; rfl
  | succ k ih => intro last l; rw [shiftRightLoop, ih, List.length_set]

/-- Elementwise effect of the move_backward loop: the slots in (last - k, last]
receive the value of the slot one below, all other slots are unchanged. -/
theorem shiftRightLoop_getElem [Inhabited α] :
    ∀ (k last : Nat) (l : List α), k ≤ last → last < l.length → ∀ i : Nat,
      (shiftRightLoop k last l)[i]? =
        if last - k < i ∧ i ≤ last then l[i - 1]? else l[i]? := by
  intro k
  induction k with
  | zero =>
    intro last l _ _ i
    have hc : ¬ (last - 0 < i ∧ i ≤ last) := by omega
    simp only [shiftRightLoop, if_neg hc]
  | succ k ih =>
    intro last l hk hl i
    rw [shiftRightLoop]
    have hlen : last - 1 < (l.set last (l.getD (last - 1) default)).length := by
      rw [List.length_set]; omega
    rw [ih (last - 1) _ (by omega) hlen i]
    have hset : ∀ j : Nat, j ≠ last →
        (l.set last (l.getD (last - 1) default))[j]? = l[j]? := by
      intro j hj
      exact List.getElem?_set_ne (by omega)
    by_cases hi : i = last
    · have hc1 : ¬ (last - 1 - k < i ∧ i ≤ last - 1) := by omega
      have hc2 : last - (k + 1) < i ∧ i ≤ last := by omega
      rw [if_neg hc1, if_pos hc2, hi, List.getElem?_set_self (by omega),
        List.getD_eq_getElem?_getD,
        List.getElem?_eq_getElem (show last - 1 < l.length by omega)]
      simp
    · by_cases h1 : last - 1 - k < i ∧ i ≤ last - 1
      · have h2 : last - (k + 1) < i ∧ i ≤ last := by omega
        rw [if_pos h1, if_pos h2]
        exact hset (i - 1) (by omega)
      · have h2 : ¬ (last - (k + 1) < i ∧ i ≤ last) := by omega
        rw [if_neg h1, if_neg h2]
        exact hset i hi

/-- shiftLeftLoop preserves the length of the list. -/
theorem shiftLeftLoop_length [Inhabited α] :
    ∀ (k dst : Nat) (l : List α), (shiftLeftLoop k dst l).length = l.length := by
  intro k
  induction k with
  | zero => intro dst l; rfl
  | succ k ih => intro dst l; rw [shiftLeftLoop, ih, List.length_set]

/-- Elementwise effect of the forward move loop: the slots in [dst, dst + k)
receive the value of the slot one above, all other slots are unchanged. -/
theorem shiftLeftLoop_getElem [Inhabited α] :
    ∀ (k dst : Nat) (l : List α), dst + k < l.length → ∀ i : Nat,
      (shiftLeftLoop k dst l)[i]? =
        if dst ≤ i ∧ i < dst + k then l[i + 1]? else l[i]? := by
  intro k
  induction k with
  | zero =>
    intro dst l _ i
    have hc : ¬ (dst ≤ i ∧ i < dst + 0) := by omega
    simp only [shiftLeftLoop, if_neg hc]
  | succ k ih =>
    intro dst l h i
    rw [shiftLeftLoop]
    have hlen : dst + 1 + k < (l.set dst (l.getD (dst + 1) default)).length := by
      rw [List.length_set]; omega
    rw [ih (dst + 1) _ hlen i]
    have hset : ∀ j : Nat, j ≠ dst →
        (l.set dst (l.getD (dst + 1) default))[j]? = l[j]? := by
      intro j hj
      exact List.getElem?_set_ne (by omega)
    by_cases hi : i = dst
    · have hc1 : ¬ (dst + 1 ≤ i ∧ i < dst + 1 + k) := by omega
      have hc2 : dst ≤ i ∧ i < dst + (k + 1) := by omega
      rw [if_neg hc1, if_pos hc2, hi, List.getElem?_set_self (by omega),
        List.getD_eq_getElem?_getD,
        List.getElem?_eq_getElem (show dst + 1 < l.length by omega)]
      simp
    · by_cases h1 : dst + 1 ≤ i ∧ i < dst + 1 + k
      · have h2 : dst ≤ i ∧ i < dst + (k + 1) := by omega
        rw [if_pos h1, if_pos h2]
        exact hset (i + 1) (by omega)
      · have h2 : ¬ (dst ≤ i ∧ i < dst + (k + 1)) := by omega
        rw [if_neg h1, if_neg h2]
        exact hset i hi

/-- Net effect of EmplaceShift's element manipulation on the list of live
elements: duplicating the last element, shifting [index, size - 1) one slot
right and assigning the new value at `index` inserts the value at `index`. -/
theorem shiftRight_insert [Inhabited α] (l : List α) (index : Nat) (x : α)
    (h : index < l.length) :
    ((shiftRightLoop (l.length - 1 - index) (l.length - 1)
        (l ++ [l.getD (l.length - 1) default])).set index x) =
      l.take index ++ x :: l.drop index := by
  have hlen0 : (l ++ [l.getD (l.length - 1) default]).length = l.length + 1 := by
    simp
  have hloop : ∀ i : Nat, (shiftRightLoop (l.length - 1 - index) (l.length - 1)
      (l ++ [l.getD (l.length - 1) default]))[i]? =
      if (l.length - 1) - (l.length - 1 - index) < i ∧ i ≤ l.length - 1
      then (l ++ [l.getD (l.length - 1) default])[i - 1]?
      else (l ++ [l.getD (l.length - 1) default])[i]? :=
    shiftRightLoop_getElem _ _ _ (by omega) (by rw [hlen0]; omega)
  have hidx : (l.length - 1) - (l.length - 1 - index) = index := by omega
  have he0 : ∀ j : Nat, (l ++ [l.getD (l.length - 1) default])[j]? =
      if j < l.length then l[j]? else if j = l.length then l[l.length - 1]? else none := by
    intro j
    by_cases hj : j < l.length
    · rw [List.getElem?_append_left hj, if_pos hj]
    · rw [if_neg hj]
      by_cases hj2 : j = l.length
      · rw [if_pos hj2, List.getElem?_append_right (by omega), hj2]
        have hz : l.length - l.length = 0 := by omega
        rw [hz, List.getElem?_cons_zero, List.getD_eq_getElem?_getD,
          List.getElem?_eq_getElem (show l.length - 1 < l.length by omega)]
        simp
      · rw [if_neg hj2, List.getElem?_append_right (by omega)]
        exact List.getElem?_eq_none (by simp; omega)
  have htake : (l.take index).length = index := by
    rw [List.length_take]; omega
  apply List.ext_getElem?
  intro i
  by_cases hi : i = index
  · rw [hi, List.getElem?_set_self (by rw [shiftRightLoop_length, hlen0]; omega),
      List.getElem?_append_right (by omega)]
    have hz : index - (l.take index).length = 0 := by omega
    rw [hz, List.getElem?_cons_zero]
  · rw [List.getElem?_set_ne (Ne.symm hi), hloop i, hidx]
    by_cases h1 : index < i ∧ i ≤ l.length - 1
    · rw [if_pos h1, he0 (i - 1), if_pos (by omega),
        List.getElem?_append_right (by omega)]
      have hz : i - (l.take index).length = (i - index - 1) + 1 := by omega
      rw [hz, List.getElem?_cons_succ, List.getElem?_drop]
      have hz2 : index + (i - index - 1) = i - 1 := by omega
      rw [hz2]
    · rw [if_neg h1, he0 i]
      by_cases h2 : i < l.length
      · rw [if_pos h2, List.getElem?_append_left (by omega),
          List.getElem?_take_of_lt (by omega)]
      · rw [if_neg h2]
        by_cases h3 : i = l.length
        · rw [if_pos h3, List.getElem?_append_right (by omega)]
          have hz : i - (l.take index).length = (i - index - 1) + 1 := by omega
          rw [hz, List.getElem?_cons_succ, List.getElem?_drop]
          have hz2 : index + (i - index - 1) = l.length - 1 := by omega
          rw [hz2]
        · rw [if_neg h3, List.getElem?_append_right (by omega)]
          have hz : i - (l.take index).length = (i - index - 1) + 1 := by omega
          rw [hz, List.getElem?_cons_succ, List.getElem?_drop]
          exact (List.getElem?_eq_none (by omega)).symm

/-- Net effect of Erase's forward move followed by PopBack: the element at
`index` is removed and the elements after it move one slot left. -/
theorem shiftLeft_erase [Inhabited α] (l : List α) (index : Nat)
    (h : index < l.length) :
    (shiftLeftLoop (l.length - index - 1) index l).dropLast =
      l.take index ++ l.drop (index + 1) := by
  have hlen : (shiftLeftLoop (l.length - index - 1) index l).length = l.length :=
    shiftLeftLoop_length _ _ _
  have hloop : ∀ i : Nat, (shiftLeftLoop (l.length - index - 1) index l)[i]? =
      if index ≤ i ∧ i < index + (l.length - index - 1) then l[i + 1]? else l[i]? :=
    shiftLeftLoop_getElem _ _ _ (by omega)
  have htake : (l.take index).length = index := by
    rw [List.length_take]; omega
  apply List.ext_getElem?
  intro i
  rw [List.getElem?_dropLast, hlen, hloop i]
  by_cases h1 : i < index
  · rw [List.getElem?_append_left (by omega), List.getElem?_take_of_lt h1,
      if_pos (by omega), if_neg (by omega)]
  · rw [List.getElem?_append_right (by omega)]
    have hz : i - (l.take index).length = i - index := by omega
    rw [hz, List.getElem?_drop]
    by_cases h2 : i < l.length - 1
    · rw [if_pos h2, if_pos (by omega)]
      have hz2 : index + 1 + (i - index) = i + 1 := by omega
      rw [hz2]
    · rw [if_neg h2]
      have hz2 : index + 1 + (i - index) = i + 1 := by omega
      rw [hz2]
      exact (List.getElem?_eq_none (by omega)).symm

/-- EmplaceShift inserts the value at `index` in the element list. -/
theorem EmplaceShift_elems [Inhabited α] (index : Nat) (x : α) (v : Vector α)
    (h : index < v.elems.length) :
    (v.EmplaceShift index x).elems = v.elems.take index ++ x :: v.elems.drop index :=
  shiftRight_insert v.elems index x h

/-- Erase removes the element at `index` from the element list. -/
theorem Erase_elems [Inhabited α] (index : Nat) (v : Vector α)
    (h : index < v.elems.length) :
    (v.Erase index).1.elems = v.elems.take index ++ v.elems.drop (index + 1) :=
  shiftLeft_erase v.elems index h

/-- C5: Emplace at index i (0 <= i <= count) keeps the prefix [0,i), places
the new value at i and shifts the old elements [i,count) one slot right;
Erase at index i (0 <= i < count) keeps [0,i), shifts [i+1,count) one slot
left, and returns the position `index` of the element that followed the
removed one; the two concrete spec examples hold. -/
theorem c5_insert_erase [Inhabited α] :
    (∀ (addr index : Nat) (x : α) (v : Vector α), index ≤ v.Size →
        (v.Emplace addr index x).1.elems = v.elems.take index ++ x :: v.elems.drop index ∧
        (v.Emplace addr index x).2 = index) ∧
    (∀ (index : Nat) (v : Vector α), index < v.Size →
        (v.Erase index).1.elems = v.elems.take index ++ v.elems.drop (index + 1) ∧
        (v.Erase index).2 = index) ∧
    (Vector.Insert 9 2 99 (⟨⟨some 1, 4⟩, [10, 20, 30, 40]⟩ : Vector Nat)).1.elems =
      [10, 20, 99, 30, 40] ∧
    (Vector.Erase 1 (⟨⟨some 1, 8⟩, [10, 20, 99, 30, 40]⟩ : Vector Nat)).1.elems =
      [10, 99, 30, 40] := by
  refine ⟨?_, ?_, by decide, by decide⟩
  · intro addr index x v h
    simp only [Vector.Size] at h
    constructor
    · unfold Vector.Emplace
      by_cases h1 : v.elems.length < v.data_.capacity
      · rw [if_pos h1]
        by_cases h2 : index = v.elems.length
        · rw [if_pos h2]
          show (v.EmplaceBack addr x).elems = _
          have h3 : ¬ v.elems.length = v.data_.capacity := by omega
          rw [Vector.EmplaceBack, if_neg h3, h2]
          simp
        · rw [if_neg h2]
          exact EmplaceShift_elems index x v (by omega)
      · rw [if_neg h1]
        show (v.EmplaceReallocate addr index x).elems = _
        rfl
    · unfold Vector.Emplace
      by_cases h1 : v.elems.length < v.data_.capacity
      · by_cases h2 : index = v.elems.length <;> simp [h1, h2]
      · simp [h1]
  · intro index v h
    simp only [Vector.Size] at h
    exact ⟨Erase_elems index v h, rfl⟩

/-- C5 witness: concrete Emplace and Erase instances with the hypotheses
discharged. -/
theorem c5_witness :
    (2 ≤ (⟨⟨some 1, 6⟩, [10, 20, 30, 40]⟩ : Vector Nat).Size ∧
      ((Vector.Emplace 9 2 99 (⟨⟨some 1, 6⟩, [10, 20, 30, 40]⟩ : Vector Nat)).1.elems =
          ([10, 20, 30, 40] : List Nat).take 2 ++ 99 :: ([10, 20, 30, 40] : List Nat).drop 2 ∧
        (Vector.Emplace 9 2 99 (⟨⟨some 1, 6⟩, [10, 20, 30, 40]⟩ : Vector Nat)).2 = 2)) ∧
    (1 < (⟨⟨some 1, 8⟩, [10, 20, 99, 30, 40]⟩ : Vector Nat).Size ∧
      ((Vector.Erase 1 (⟨⟨some 1, 8⟩, [10, 20, 99, 30, 40]⟩ : Vector Nat)).1.elems =
          ([10, 20, 99, 30, 40] : List Nat).take 1 ++
            ([10, 20, 99, 30, 40] : List Nat).drop 2 ∧
        (Vector.Erase 1 (⟨⟨some 1, 8⟩, [10, 20, 99, 30, 40]⟩ : Vector Nat)).2 = 1)) :=
  ⟨⟨by decide, c5_insert_erase.1 9 2 99 _ (by decide)⟩,
    ⟨by decide, c5_insert_erase.2.1 1 _ (by decide)⟩⟩

/-- The damaged source list returned by a failing uninitialized_move_n has
the same length as the input: only element values are hit, not the count. -/
theorem uninitMoveNT_error_length (fail : Nat → Bool) (mv : α → α) :
    ∀ (cnt : Nat) (xs xs1 : List α),
      uninitMoveNT fail mv cnt xs = Except.error xs1 → xs1.length = xs.length := by
  intro cnt xs
  induction xs generalizing cnt with
  | nil =>
    intro xs1 h
    simp [uninitMoveNT] at h
  | cons x xs ih =>
    intro xs1 h
    rw [uninitMoveNT] at h
    split at h
    · injection h with h1
      rw [← h1]
    · split at h
      · simp at h
      · next xs2 heq =>
        injection h with h1
        rw [← h1, List.length_cons, List.length_cons, ih (cnt + 1) xs2 heq]

/-- C1 counterexample: for a non-copyable element type whose move constructor
throws (here the second move invocation throws and a moved-from element
becomes `none`), the constexpr-if selects the move transfer, and a failing
Reserve leaves the container with a damaged first element: the element values
are not identical to before the call. -/
theorem c1_counterexample :
    selectPolicy false false = TransferPolicy.move ∧
    Vector.ReserveTM (fun i => i == 2) (fun _ => (none : Option Nat)) 0 9 4
        ⟨⟨some 5, 2⟩, [some 10, some 20]⟩ =
      Except.error ⟨⟨some 5, 2⟩, [none, some 20]⟩ ∧
    (⟨⟨some 5, 2⟩, [none, some 20]⟩ : Vector (Option Nat)) ≠
      ⟨⟨some 5, 2⟩, [some 10, some 20]⟩ := by
  refine ⟨rfl, rfl, by decide⟩

/-- C1 (amended): when the copy transfer is selected (copyable element type
whose move may throw), a failing Reserve, PushBack/EmplaceBack, reallocating
Emplace and reallocating copy-assignment leave the container exactly as it
was; on the forced-move path (non-copyable type with a throwing move) a
failing Reserve still preserves the buffer, capacity and count, but element
values may be left moved-from. -/
theorem c1_strong_copy_path :
    (∀ (fail : Nat → Bool) (cnt addr m : Nat) (v w : Vector α),
        Vector.ReserveTC fail cnt addr m v = Except.error w → w = v) ∧
    (∀ (fail : Nat → Bool) (cnt addr : Nat) (x : α) (v w : Vector α),
        Vector.EmplaceBackTC fail cnt addr x v = Except.error w → w = v) ∧
    (∀ (fail : Nat → Bool) (cnt addr index : Nat) (x : α) (v w : Vector α),
        Vector.EmplaceReallocateTC fail cnt addr index x v = Except.error w → w = v) ∧
    (∀ (fail : Nat → Bool) (cnt addr : Nat) (self rhs w : Vector α),
        self.Capacity < rhs.Size →
        Vector.copyAssignReallocTC fail cnt addr self rhs = Except.error w → w = self) ∧
    (∀ (fail : Nat → Bool) (mv : α → α) (cnt addr m : Nat) (v w : Vector α),
        Vector.ReserveTM fail mv cnt addr m v = Except.error w →
          w.data_ = v.data_ ∧ w.Size = v.Size) := by
  refine ⟨?_, ?_, ?_, ?_, ?_⟩
  · intro fail cnt addr m v w h
    unfold Vector.ReserveTC at h
    split at h
    · simp at h
    · split at h
      · injection h with h1; exact h1.symm
      · simp at h
  · intro fail cnt addr x v w h
    unfold Vector.EmplaceBackTC at h
    split at h
    · split at h
      · injection h with h1; exact h1.symm
      · split at h
        · injection h with h1; exact h1.symm
        · simp at h
    · split at h
      · injection h with h1; exact h1.symm
      · simp at h
  · intro fail cnt addr index x v w h
    unfold Vector.EmplaceReallocateTC at h
    split at h
    · injection h with h1; exact h1.symm
    · split at h
      · injection h with h1; exact h1.symm
      · split at h
        · injection h with h1; exact h1.symm
        · simp at h
  · intro fail cnt addr self rhs w hgt h
    unfold Vector.copyAssignReallocTC at h
    split at h
    · injection h with h1; exact h1.symm
    · simp at h
  · intro fail mv cnt addr m v w h
    unfold Vector.ReserveTM at h
    split at h
    · simp at h
    · split at h
      · next xs1 heq =>
        injection h with h1
        rw [← h1]
        exact ⟨rfl, by
          simp only [Vector.Size]
          exact uninitMoveNT_error_length fail mv cnt v.elems xs1 heq⟩
      · simp at h

/-- C1 witness: a failing copy-path Reserve on a one-element vector returns
exactly the original container state. -/
theorem c1_witness :
    Vector.ReserveTC (fun _ => true) 0 3 2 (⟨⟨some 1, 1⟩, [42]⟩ : Vector Nat) =
      Except.error ⟨⟨some 1, 1⟩, [42]⟩ ∧
    (⟨⟨some 1, 1⟩, [42]⟩ : Vector Nat) = ⟨⟨some 1, 1⟩, [42]⟩ :=
  ⟨rfl, c1_strong_copy_path.1 (fun _ => true) 0 3 2 _ _ rfl⟩

end VecModel
